import Mathlib

/-!
Verification of absh (A/B testing for shell scripts) against its
specification.  The Rust sources `src/main.rs`, `src/mem_usage.rs`,
`src/measure/key.rs` and `src/sh.rs` are embedded shallowly: pure
functions become Lean functions, the stateful run loop becomes explicit
state passing over an `Experiment` record, and the effects of external
shell processes are supplied by explicit outcome records.  Machine
integers (`u64`, `usize`) are modelled as `Nat`; none of the verified
operations overflow.  Logging (`writeln!` to the run log) has no effect
on the verified state and is omitted.

Modules `experiment.rs`, `experiment_map.rs`, `measure/map.rs`,
`duration.rs` and `run_log.rs` are not part of the available sources;
the containers they provide are modelled from the specification and are
marked `Modelled from the spec:` in their doc comments.
-/

/-! ### `src/measure/key.rs` -/

/-- Transcribed from `measure/key.rs`: stable identifier of a tracked
metric (wall time, max RSS, or the `u`-th user metric). -/
inductive MeasureKey where
  | WallTime
  | MaxRss
  | User (u : Nat)
  deriving DecidableEq, Repr

/-- Transcribed from `MeasureKey::index` in `measure/key.rs`. -/
def MeasureKey.index : MeasureKey → Nat
  | .WallTime => 0
  | .MaxRss => 1
  | .User u => 2 + u

/-- Transcribed from `MeasureKey::from_index` in `measure/key.rs`
(`u - 2` on `usize` agrees with truncated subtraction since the branch
is taken only for `u ≥ 2`). -/
def MeasureKey.from_index : Nat → MeasureKey
  | 0 => .WallTime
  | 1 => .MaxRss
  | u => .User (u - 2)

/-! ### `src/mem_usage.rs` -/

/-- Transcribed from `mem_usage.rs`: a memory amount held as a `u64`
byte count. -/
structure MemUsage where
  bytes : Nat
  deriving DecidableEq, Repr

/-- Transcribed from `MemUsage::from_bytes`. -/
def MemUsage.from_bytes (bytes : Nat) : MemUsage := ⟨bytes⟩

/-- Transcribed from `MemUsage::mib` (`bytes >> 20`). -/
def MemUsage.mib (m : MemUsage) : Nat := m.bytes >>> 20

/-- Transcribed from `MemUsage::mb` (`bytes / 1_000_000`). -/
def MemUsage.mb (m : MemUsage) : Nat := m.bytes / 1000000

/-- Rust `u64::checked_sub`: `some` of the difference when it does not
underflow, `none` otherwise. -/
def checkedSub (a b : Nat) : Option Nat :=
  if b ≤ a then some (a - b) else none

/-- Transcribed from `impl Sub for MemUsage`: the Rust code computes
`self.bytes.checked_sub(rhs.bytes).unwrap()`; the `unwrap` panic on
underflow is modelled as `none`. -/
def MemUsage.sub (a b : MemUsage) : Option MemUsage :=
  (checkedSub a.bytes b.bytes).map MemUsage.mk

/-- Transcribed from `impl Add for MemUsage`. -/
def MemUsage.add (a b : MemUsage) : MemUsage := ⟨a.bytes + b.bytes⟩

/-- The order derived by `#[derive(PartialOrd, Ord)]` on the single
`bytes` field: comparison of the byte counts. -/
instance : LE MemUsage := ⟨fun a b => a.bytes ≤ b.bytes⟩

instance : LT MemUsage := ⟨fun a b => a.bytes < b.bytes⟩

instance (a b : MemUsage) : Decidable (a ≤ b) :=
  inferInstanceAs (Decidable (a.bytes ≤ b.bytes))

instance (a b : MemUsage) : Decidable (a < b) :=
  inferInstanceAs (Decidable (a.bytes < b.bytes))

/-- Fuel-driven computation of the binary scale of `n` relative to the
53-bit significand of an IEEE 754 double: the least `s` with
`n / 2 ^ s < 2 ^ 53`.  Fuel 64 suffices for every `u64` input (eleven
halvings already bring `2 ^ 64 - 1` below `2 ^ 53`). -/
def f64ScaleFuel : Nat → Nat → Nat
  | 0, _ => 0
  | fuel + 1, n => if n < 2 ^ 53 then 0 else f64ScaleFuel fuel (n / 2) + 1

/-- The binary scale of a `u64` value in the double format. -/
def f64Scale (n : Nat) : Nat := f64ScaleFuel 64 n

/-- The exact value of the Rust cast `n as f64` for a `u64` input `n`,
which is always a nonnegative integer: values below `2 ^ 53` convert
exactly; a larger value is rounded to the nearest multiple of `2 ^ s`
(so that the significand `q = n / 2 ^ s` fits in 53 bits), ties to the
even significand — the IEEE 754 round-to-nearest-even conversion the
cast performs.  Every such value is exactly representable as a double,
so the double is modelled by its integer value. -/
def u64AsF64 (n : Nat) : Nat :=
  if n < 2 ^ 53 then n
  else
    let s := f64Scale n
    let q := n / 2 ^ s
    let r := n % 2 ^ s
    let half := 2 ^ (s - 1)
    if r < half then q * 2 ^ s
    else if half < r then (q + 1) * 2 ^ s
    else if q % 2 = 0 then q * 2 ^ s else (q + 1) * 2 ^ s

/-- The Rust cast `f as u64` on a nonnegative integer-valued double —
the only doubles `MemUsage`'s `from_f64` receives from `as_f64`: the
cast truncates toward zero (the identity on an integer value) and
saturates at `u64::MAX`. -/
def f64AsU64 (v : Nat) : Nat := min v (2 ^ 64 - 1)

/-- Transcribed from `Number::as_f64` for `MemUsage` in `mem_usage.rs`
(`self.bytes as f64`), with the double represented by its exact
integer value. -/
def MemUsage.as_f64 (m : MemUsage) : Nat := u64AsF64 m.bytes

/-- Transcribed from `Number::from_f64` for `MemUsage` in
`mem_usage.rs` (`MemUsage { bytes: f as u64 }`). -/
def MemUsage.from_f64 (v : Nat) : MemUsage := ⟨f64AsU64 v⟩

/-! ### `AlsoMeasure` (`src/main.rs` lines 80–118) -/

/-- Transcribed from `struct AlsoMeasure` in `main.rs`: a user-defined
metric specification. -/
structure AlsoMeasure where
  id : String
  is_size : Bool
  name : String
  cmd : String
  deriving DecidableEq, Repr

/-- Rust `str::split_once` on a single-character pattern, over the
character list of the string: splits at the first occurrence of the
separator, if any. -/
def splitOnceChars : List Char → Char → Option (List Char × List Char)
  | [], _ => none
  | c :: cs, sep =>
    if c = sep then some ([], cs)
    else
      match splitOnceChars cs sep with
      | some (l, r) => some (c :: l, r)
      | none => none

/-- Rust `str::split_once` lifted to `String`. -/
def splitOnce (s : String) (sep : Char) : Option (String × String) :=
  match splitOnceChars s.data sep with
  | some (l, r) => some (⟨l⟩, ⟨r⟩)
  | none => none

/-- Transcribed from `impl FromStr for AlsoMeasure` in `main.rs`: the
input is split on the first three colons into
`id : is_size : description : command`; `is_size` must be literally
`"0"` or `"1"`; any failure returns the whole input as the error. -/
def AlsoMeasure.from_str (s : String) : Except String AlsoMeasure :=
  match splitOnce s ':' with
  | some (id, rest) =>
    match splitOnce rest ':' with
    | some (is_size_s, rest2) =>
      match splitOnce rest2 ':' with
      | some (description, cmd) =>
        match is_size_s with
        | "0" => .ok ⟨id, false, description, cmd⟩
        | "1" => .ok ⟨id, true, description, cmd⟩
        | _ => .error s
      | none => .error s
    | none => .error s
  | none => .error s

/-- Rust's `Display` for `bool` as used by the `{}` format specifier:
`"true"` or `"false"`. -/
def boolDisplay : Bool → String
  | false => "false"
  | true => "true"

/-- Transcribed from `impl Display for AlsoMeasure` in `main.rs`:
`write!(f, "{}:{}:{}:{}", id, is_size, name, cmd)`, where `is_size` is
a `bool` and therefore renders as `true`/`false`. -/
def AlsoMeasure.display (a : AlsoMeasure) : String :=
  a.id ++ ":" ++ boolDisplay a.is_size ++ ":" ++ a.name ++ ":" ++ a.cmd

/-! ### Sample storage

`measure/map.rs`, `experiment.rs` and `experiment_map.rs` are not among
the available sources; they are modelled from the specification. -/

/-- Modelled from the spec: `MeasureMap` (design note §9) is "a
fixed-size array indexed by the variant's dense integer index, sized at
experiment-set construction time from the count of configured user
metrics"; each entry is a `SampleSequence`, an append-only ordered list
of samples (`u64` values, modelled as `Nat`). -/
structure MeasureMap where
  entries : List (List Nat)
  deriving DecidableEq, Repr

/-- Modelled from the spec: `MeasureMap::new_all_default` creates one
empty sample sequence per metric (wall time, max RSS, and one per
configured user metric). -/
def MeasureMap.new_all_default (user_measure_count : Nat) : MeasureMap :=
  ⟨List.replicate (2 + user_measure_count) []⟩

/-- Indexing a `MeasureMap` by a key's dense index. -/
def MeasureMap.get (m : MeasureMap) (k : MeasureKey) : List Nat :=
  m.entries.getD k.index []

/-- Appending one sample to the sequence stored at `k`
(`test.measures[k].push(v)` in `main.rs`). -/
def MeasureMap.push (m : MeasureMap) (k : MeasureKey) (v : Nat) : MeasureMap :=
  ⟨m.entries.set k.index (m.entries.getD k.index [] ++ [v])⟩

/-- Clearing every sample sequence
(`for numbers in test.measures.values_mut() { numbers.clear(); }`). -/
def MeasureMap.clearAll (m : MeasureMap) : MeasureMap :=
  ⟨m.entries.map (fun _ => [])⟩

/-- Experiment slots A–E (`experiment_name.rs`, used in `main.rs`). -/
inductive ExperimentName where
  | A
  | B
  | C
  | D
  | E
  deriving DecidableEq, Repr

/-- Modelled from the spec: an `Experiment` (§3) is an identity, its
run/warmup script text, and its collection of sample sequences, exactly
as constructed in `main.rs` (`Experiment { name, warmup, run, measures }`). -/
structure Experiment where
  name : ExperimentName
  warmup : String
  run : String
  measures : MeasureMap
  deriving DecidableEq, Repr

/-- Appending one sample to an experiment's sequence for key `k`. -/
def Experiment.push (e : Experiment) (k : MeasureKey) (v : Nat) : Experiment :=
  { e with measures := e.measures.push k v }

/-- Modelled from the spec: `Experiment::runs` is the experiment's
recorded sample count; by the `SampleSequence` invariant (§3, "length
equals the number of successful runs recorded") it is the length of the
wall-time sequence, which every successful run appends to. -/
def Experiment.runs (e : Experiment) : Nat :=
  (e.measures.get .WallTime).length

/-- Clearing all of an experiment's sample sequences. -/
def Experiment.clearMeasures (e : Experiment) : Experiment :=
  { e with measures := e.measures.clearAll }

/-- Modelled from the spec: the `ExperimentMap` holds the configured
experiments; experiment A is always present (`main.rs` inserts it
unconditionally) and B–E are optional, so the map is a nonempty list. -/
structure ExperimentMap where
  a : Experiment
  rest : List Experiment
  deriving DecidableEq, Repr

/-- All configured experiments, in slot order. -/
def ExperimentMap.experimentList (m : ExperimentMap) : List Experiment :=
  m.a :: m.rest

/-- Transcribed from `main.rs`:
`experiments.values_mut().map(|t| t.runs()).min().unwrap()` — the
minimum sample count over all configured experiments (the `unwrap` is
safe because experiment A is always present). -/
def ExperimentMap.minRuns (m : ExperimentMap) : Nat :=
  m.rest.foldl (fun acc e => Nat.min acc e.runs) m.a.runs

/-- Clearing the sample sequences of every experiment. -/
def ExperimentMap.clearAll (m : ExperimentMap) : ExperimentMap :=
  ⟨m.a.clearMeasures, m.rest.map Experiment.clearMeasures⟩

/-! ### Command-line options and external outcomes -/

/-- Transcribed from `struct Opts` in `main.rs`, restricted to the
fields that influence the verified control flow (the script texts `-a`
… `-e` and warmups live inside the `Experiment`s). -/
structure Opts where
  random_order : Bool
  ignore_first : Bool
  iterations : Option Nat
  mem : Bool
  also_measure : List AlsoMeasure
  max_time : Option Nat
  deriving Repr

/-- The observable outcome of one user-metric command (`run_sh` in
`run_test`): whether the command exited successfully, and the result of
parsing its trimmed UTF-8 stdout as a number (`none` when `from_utf8`
or `parse` fails). -/
structure UserOutput where
  success : Bool
  parsed : Option Nat
  deriving DecidableEq, Repr

/-- The observable outcome of one `run_test` invocation's external
processes: exit status of the warmup and run scripts, the measured wall
time in nanoseconds, the `maxrss` reported by `wait4`, and one
`UserOutput` per configured user metric, in order. -/
structure RunOutcome where
  warmupSuccess : Bool
  runSuccess : Bool
  durationNanos : Nat
  maxrss : Nat
  userOutputs : List UserOutput
  deriving DecidableEq, Repr

/-- The hard errors `run_test` can return (soft failures return `ok`):
`maxrss not available`, and a `from_utf8`/`parse` failure propagated by
`?` from the user-metric loop. -/
inductive RunError where
  | maxrssNotAvailable
  | parseError
  deriving DecidableEq, Repr

/-! ### `run_test` (`src/main.rs` lines 120–222) -/

/-- Transcribed from `main.rs` lines 167–176: whether the measured
duration exceeds the configured `--max-time` limit.  `Duration` is not
among the available sources; modelled from the spec ("execution
exceeding a configured time limit"), `seconds_f64` is the nanosecond
count divided by 10^9, so the comparison
`duration.seconds_f64() > max_time_s as f64` is `max_time_s * 10^9 <
durationNanos` in exact arithmetic. -/
def exceedsMaxTime (opts : Opts) (durationNanos : Nat) : Bool :=
  match opts.max_time with
  | some max_time_s => decide (max_time_s * 1000000000 < durationNanos)
  | none => false

/-- Transcribed from the `also_measure` loop of `run_test` (`main.rs`
lines 186–210), one `UserOutput` per configured user metric: a command
with non-zero exit logs a warning and returns `Ok(())` (soft failure);
unparseable output propagates an error via `?`; a parsed value is
pushed onto the `User u` sequence and the loop continues with the next
index.  The `extra_info` string built alongside is pure logging and is
omitted. -/
def runUserLoop : List UserOutput → Nat → Experiment →
    Except RunError Unit × Experiment
  | [], _, test => (Except.ok (), test)
  | o :: os, u, test =>
    if o.success = false then (Except.ok (), test)
    else
      match o.parsed with
      | none => (Except.error RunError.parseError, test)
      | some v => runUserLoop os (u + 1) (test.push (.User u) v)

/-- Transcribed from `run_test` in `main.rs` (lines 120–222), as a pure
function of the options, the outcome of the external processes, and the
experiment state; it returns the Rust function's `Result` together with
the final experiment state.  Control flow, in source order: warmup
non-zero exit → `Ok` early return; run-script non-zero exit → `Ok`
early return; duration over `--max-time` → `Ok` early return;
`maxrss == 0` → error; otherwise the wall-time and max-RSS samples are
pushed and the user-metric loop runs. -/
def run_test (opts : Opts) (out : RunOutcome) (test : Experiment) :
    Except RunError Unit × Experiment :=
  if out.warmupSuccess = false then (Except.ok (), test)
  else if out.runSuccess = false then (Except.ok (), test)
  else if exceedsMaxTime opts out.durationNanos then (Except.ok (), test)
  else if out.maxrss = 0 then (Except.error RunError.maxrssNotAvailable, test)
  else
    let test := test.push .WallTime out.durationNanos
    let test := test.push .MaxRss out.maxrss
    runUserLoop out.userOutputs 0 test

/-! ### `run_pair` and the main loop (`src/main.rs` lines 224–237 and 383–406) -/

/-- Transcribed from `run_pair` in `main.rs`, applied to the
experiments after A: each experiment is run with its round outcome and
a `run_test` error propagates via `?`, leaving the remaining
experiments untouched.  (`-r` only shuffles the visit order and no
verified claim depends on the order; the unshuffled order is used.) -/
def runExperimentList (opts : Opts) :
    List Experiment → List RunOutcome → Except RunError Unit × List Experiment
  | [], _ => (Except.ok (), [])
  | es, [] => (Except.ok (), es)
  | e :: es, o :: os =>
    match run_test opts o e with
    | (Except.ok _, e') =>
      let (r, es') := runExperimentList opts es os
      (r, e' :: es')
    | (Except.error err, e') => (Except.error err, e' :: es)

/-- Transcribed from `run_pair` in `main.rs`: one round runs every
configured experiment in turn (`outs` supplies one `RunOutcome` per
experiment, starting with A). -/
def run_pair (opts : Opts) (outs : List RunOutcome) (m : ExperimentMap) :
    Except RunError Unit × ExperimentMap :=
  match outs with
  | [] => (Except.ok (), m)
  | oa :: os =>
    match run_test opts oa m.a with
    | (Except.ok _, a') =>
      let (r, es') := runExperimentList opts m.rest os
      (r, ⟨a', es'⟩)
    | (Except.error err, a') => (Except.error err, ⟨a', m.rest⟩)

/-- What the main loop does after a round completes. -/
inductive LoopAction where
  | stop
  | continueNoReport
  | report
  deriving DecidableEq, Repr

/-- Transcribed from the main loop of `main.rs` (lines 386–393), in
source order: `break` when `Some(min_count) == opts.iterations`;
`continue` (no report) when `min_count < 2`; otherwise render and write
the full and short reports. -/
def afterRound (opts : Opts) (m : ExperimentMap) : LoopAction :=
  if opts.iterations = some m.minRuns then .stop
  else if m.minRuns < 2 then .continueNoReport
  else .report

/-- Observable events of the main control loop. -/
inductive MainEvent where
  | roundRun
  | clearSamples
  | reportRendered
  deriving DecidableEq, Repr

/-- Transcribed from the `loop` in `main` (`main.rs` lines 383–406),
driven by a list of per-round outcome lists (an empty list of remaining
rounds models external termination of the endless loop): each round
runs `run_pair` (a hard error aborts `main` via `?`), then acts
according to `afterRound`. -/
def mainLoop (opts : Opts) :
    List (List RunOutcome) → ExperimentMap → List MainEvent
  | [], _ => []
  | outs :: rounds, exps =>
    match run_pair opts outs exps with
    | (Except.error _, _) => [.roundRun]
    | (Except.ok _, exps') =>
      match afterRound opts exps' with
      | .stop => [.roundRun]
      | .continueNoReport => .roundRun :: mainLoop opts rounds exps'
      | .report => .roundRun :: .reportRendered :: mainLoop opts rounds exps'

/-- Transcribed from `main` (`main.rs` lines 319–358 and 383–406): with
`-i` the first round is run and then every sample sequence of every
experiment is cleared (a hard error in that first round aborts `main`
via `?` before the clear); afterwards — or immediately, without `-i` —
the main loop runs. -/
def mainEvents (opts : Opts) (rounds : List (List RunOutcome))
    (exps : ExperimentMap) : List MainEvent :=
  if opts.ignore_first then
    match rounds with
    | [] => []
    | outs :: rest =>
      match run_pair opts outs exps with
      | (Except.error _, _) => [.roundRun]
      | (Except.ok _, exps') =>
        .roundRun :: .clearSamples :: mainLoop opts rest exps'.clearAll
  else mainLoop opts rounds exps

/-! ### Report measure selection (`src/main.rs` lines 360–381) -/

/-- A measure renderer pushed onto the `measures` vector in `main`,
identified by its kind (the display machinery behind `MeasureDyn` is
out of scope of the claims). -/
inductive MeasureRenderer where
  | wallTime
  | maxRss
  | user (idx : Nat) (id : String) (is_size : Bool)
  deriving DecidableEq, Repr

/-- Transcribed from `main.rs` lines 360–381: wall time is always
rendered, max RSS only when `-m`/`--mem` is set, and one user renderer
per `--also-measure` entry, in order. -/
def buildMeasures (opts : Opts) : List MeasureRenderer :=
  let users := ((List.range opts.also_measure.length).zip opts.also_measure).map
    (fun p => MeasureRenderer.user p.1 p.2.id p.2.is_size)
  [MeasureRenderer.wallTime]
    ++ (if opts.mem then [MeasureRenderer.maxRss] else [])
    ++ users


/-! ### Helper lemmas -/

lemma getD_set_ne {α : Type} (l : List α) (i j : Nat) (x d : α) (h : i ≠ j) :
    (l.set i x).getD j d = l.getD j d := by
  induction l generalizing i j with
  | nil => simp
  | cons a as ih =>
    cases i with
    | zero =>
      cases j with
      | zero => exact absurd rfl h
      | succ k => simp [List.set]
    | succ m =>
      cases j with
      | zero => simp [List.set]
      | succ k =>
        simp only [List.set, List.getD_cons_succ]
        exact ih m k (by omega)

lemma getD_set_self {α : Type} (l : List α) (i : Nat) (x d : α)
    (h : i < l.length) : (l.set i x).getD i d = x := by
  induction l generalizing i with
  | nil => simp at h
  | cons a as ih =>
    cases i with
    | zero => simp [List.set]
    | succ m =>
      simp only [List.set, List.getD_cons_succ]
      exact ih m (by simpa using h)

lemma MeasureMap.get_push_ne (m : MeasureMap) (k k' : MeasureKey) (v : Nat)
    (h : k.index ≠ k'.index) : (m.push k v).get k' = m.get k' := by
  unfold MeasureMap.push MeasureMap.get
  exact getD_set_ne _ _ _ _ _ h

lemma MeasureMap.get_push_self (m : MeasureMap) (k : MeasureKey) (v : Nat)
    (h : k.index < m.entries.length) : (m.push k v).get k = m.get k ++ [v] := by
  unfold MeasureMap.push MeasureMap.get
  exact getD_set_self _ _ _ _ h

lemma MeasureMap.push_entries_length (m : MeasureMap) (k : MeasureKey) (v : Nat) :
    (m.push k v).entries.length = m.entries.length := by
  simp [MeasureMap.push]

/-- The user-metric loop only ever pushes onto `User` sequences
(indices `≥ 2`), so the wall-time and max-RSS sequences (indices `< 2`)
pass through it untouched. -/
lemma runUserLoop_get_low (os : List UserOutput) (u : Nat) (test : Experiment)
    (k : MeasureKey) (hk : k.index < 2) :
    (runUserLoop os u test).2.measures.get k = test.measures.get k := by
  induction os generalizing u test with
  | nil => rfl
  | cons o os ih =>
    cases hs : o.success with
    | false => simp [runUserLoop, hs]
    | true =>
      cases hp : o.parsed with
      | none => simp [runUserLoop, hs, hp]
      | some v =>
        rw [show runUserLoop (o :: os) u test
            = runUserLoop os (u + 1) (test.push (.User u) v) by
          simp [runUserLoop, hs, hp]]
        rw [ih]
        exact MeasureMap.get_push_ne _ _ _ _
          (by have hidx : (MeasureKey.User u).index = 2 + u := rfl; omega)

/-- The user-metric loop walks through a prefix of successful, parseable
outputs, only pushing samples, and then continues with the remaining
outputs at the shifted index. -/
lemma runUserLoop_append (pre tail : List UserOutput) (u : Nat) (test : Experiment)
    (hpre : ∀ x ∈ pre, x.success = true ∧ x.parsed.isSome = true) :
    ∃ t', runUserLoop (pre ++ tail) u test = runUserLoop tail (u + pre.length) t' := by
  induction pre generalizing u test with
  | nil => exact ⟨test, by simp⟩
  | cons o os ih =>
    obtain ⟨hs, hp⟩ := hpre o (List.mem_cons_self o os)
    obtain ⟨v, hv⟩ := Option.isSome_iff_exists.mp hp
    obtain ⟨t', ht'⟩ := ih (u + 1) (test.push (.User u) v)
        (fun x hx => hpre x (List.mem_cons_of_mem o hx))
    refine ⟨t', ?_⟩
    rw [show (o :: os) ++ tail = o :: (os ++ tail) from rfl]
    rw [show runUserLoop (o :: (os ++ tail)) u test
        = runUserLoop (os ++ tail) (u + 1) (test.push (.User u) v) by
      simp [runUserLoop, hs, hv]]
    rw [ht']
    have harith : u + 1 + os.length = u + (o :: os).length := by
      simp [List.length_cons]
      omega
    rw [harith]

/-- A lower bound passes through the fold computing the minimum sample
count. -/
lemma le_foldl_min (l : List Experiment) (init n : Nat) :
    n ≤ l.foldl (fun acc e => Nat.min acc e.runs) init
      ↔ n ≤ init ∧ ∀ e ∈ l, n ≤ e.runs := by
  induction l generalizing init with
  | nil => simp
  | cons a as ih =>
    rw [List.foldl_cons, ih]
    constructor
    · rintro ⟨h1, h2⟩
      have := Nat.le_min.mp h1
      exact ⟨this.1, fun e he => by
        rcases List.mem_cons.mp he with rfl | he'
        · exact this.2
        · exact h2 e he'⟩
    · rintro ⟨h1, h2⟩
      exact ⟨Nat.le_min.mpr ⟨h1, h2 a (List.mem_cons_self a as)⟩,
        fun e he => h2 e (List.mem_cons_of_mem a he)⟩

/-- A lower bound on the minimum sample count is exactly a lower bound
on every configured experiment's count. -/
lemma le_minRuns_iff (m : ExperimentMap) (n : Nat) :
    n ≤ m.minRuns ↔ ∀ e ∈ m.experimentList, n ≤ e.runs := by
  rw [ExperimentMap.minRuns, le_foldl_min]
  constructor
  · rintro ⟨h1, h2⟩ e he
    rcases List.mem_cons.mp he with rfl | he'
    · exact h1
    · exact h2 e he'
  · intro h
    exact ⟨h m.a (List.mem_cons_self _ _),
      fun e he => h e (List.mem_cons_of_mem _ he)⟩

/-- The main loop proper never clears sample sequences. -/
lemma clearSamples_not_mem_mainLoop (opts : Opts) (rounds : List (List RunOutcome))
    (exps : ExperimentMap) :
    MainEvent.clearSamples ∉ mainLoop opts rounds exps := by
  induction rounds generalizing exps with
  | nil => simp [mainLoop]
  | cons outs rest ih =>
    rcases hrp : run_pair opts outs exps with ⟨r, exps'⟩
    cases r with
    | error e => simp [mainLoop, hrp]
    | ok u =>
      cases ha : afterRound opts exps' with
      | stop => simp [mainLoop, hrp, ha]
      | continueNoReport => simp [mainLoop, hrp, ha, ih]
      | report => simp [mainLoop, hrp, ha, ih]

/-! ### Concrete fixtures used by witnesses and counterexamples -/

/-- A concrete option set: no flags, no user metrics, no limits. -/
def sampleOpts : Opts := ⟨false, false, none, false, [], none⟩

/-- A fresh experiment for slot A with no configured user metrics. -/
def sampleExperiment : Experiment :=
  ⟨.A, "", "./a.sh", MeasureMap.new_all_default 0⟩

/-- A fresh experiment for slot A with one configured user metric. -/
def sampleExperimentU1 : Experiment :=
  ⟨.A, "", "./a.sh", MeasureMap.new_all_default 1⟩

/-- A concrete option set with one configured user metric. -/
def sampleOptsU1 : Opts :=
  ⟨false, false, none, false, [⟨"m", false, "metric", "./m.sh"⟩], none⟩

/-! ### The claims -/

/-- C6: `MeasureKey` conversion to a dense integer index is lossless in
both directions: `from_index (k.index) = k` for every key `k`,
`(from_index i).index = i` for every natural number `i`, and the
mapping sends `WallTime` to 0, `MaxRss` to 1 and `User u` to `2 + u`. -/
theorem c6_measure_key_index_round_trip :
    (∀ k : MeasureKey, MeasureKey.from_index k.index = k)
    ∧ (∀ i : Nat, (MeasureKey.from_index i).index = i)
    ∧ MeasureKey.WallTime.index = 0
    ∧ MeasureKey.MaxRss.index = 1
    ∧ (∀ u : Nat, (MeasureKey.User u).index = 2 + u) := by
  refine ⟨?_, ?_, rfl, rfl, fun u => rfl⟩
  · intro k
    cases k with
    | WallTime => rfl
    | MaxRss => rfl
    | User u =>
      show MeasureKey.from_index (2 + u) = MeasureKey.User u
      rw [Nat.add_comm]
      rfl
  · intro i
    match i with
    | 0 => rfl
    | 1 => rfl
    | n + 2 =>
      show MeasureKey.index (MeasureKey.User (n + 2 - 2)) = n + 2
      show 2 + (n + 2 - 2) = n + 2
      omega

/-- C9: `MemUsage` subtraction is total exactly when the subtrahend is
no larger than the minuend: for `b ≤ a` it yields
`MemUsage.from_bytes (a.bytes - b.bytes)`, and for `a < b` the
`checked_sub` returns nothing and the `unwrap` panics (modelled as
`none`). -/
theorem c9_mem_usage_sub_partial_totality (a b : MemUsage) :
    (b ≤ a → MemUsage.sub a b = some (MemUsage.from_bytes (a.bytes - b.bytes)))
    ∧ (a < b → MemUsage.sub a b = none) := by
  constructor
  · intro h
    have h' : b.bytes ≤ a.bytes := h
    simp [MemUsage.sub, checkedSub, h', MemUsage.from_bytes]
  · intro h
    have h' : a.bytes < b.bytes := h
    have hn : ¬ b.bytes ≤ a.bytes := by omega
    simp [MemUsage.sub, checkedSub, hn]

/-- Witness for C9 at concrete inputs: `5 - 3` bytes succeeds with `2`
bytes, and `3 - 5` bytes underflows. -/
theorem c9_witness :
    MemUsage.sub (MemUsage.from_bytes 5) (MemUsage.from_bytes 3)
        = some (MemUsage.from_bytes 2)
    ∧ MemUsage.sub (MemUsage.from_bytes 3) (MemUsage.from_bytes 5) = none := by
  constructor
  · have h := (c9_mem_usage_sub_partial_totality
        (MemUsage.from_bytes 5) (MemUsage.from_bytes 3)).1 (by decide)
    simpa using h
  · exact (c9_mem_usage_sub_partial_totality
        (MemUsage.from_bytes 3) (MemUsage.from_bytes 5)).2 (by decide)

/-- The value that the Scenario 3 user-metric specification string
parses to. -/
def alsoMeasureScenario3 : AlsoMeasure :=
  ⟨"rss", true, "Resident Set", "cat /proc/self/status"⟩

/-- C3 counterexample: the specification string parses as claimed, but
re-serializing the parsed value does NOT yield the identical input
string, because `Display` renders the `is_size` bool as `true`, not as
`1`. -/
theorem c3_counterexample :
    AlsoMeasure.from_str "rss:1:Resident Set:cat /proc/self/status"
        = Except.ok alsoMeasureScenario3
    ∧ alsoMeasureScenario3.display ≠ "rss:1:Resident Set:cat /proc/self/status" := by
  constructor
  · rfl
  · decide

/-- C3 amended: parsing `"rss:1:Resident Set:cat /proc/self/status"`
succeeds with `id = "rss"`, `is_size = true`, `name = "Resident Set"`,
`cmd = "cat /proc/self/status"`, and re-serializing via `Display`
yields `"rss:true:Resident Set:cat /proc/self/status"` (the bool
renders as `true`/`false`, so the round trip is not the identity). -/
theorem c3_amended_parse_and_reserialize :
    AlsoMeasure.from_str "rss:1:Resident Set:cat /proc/self/status"
        = Except.ok alsoMeasureScenario3
    ∧ alsoMeasureScenario3.id = "rss"
    ∧ alsoMeasureScenario3.is_size = true
    ∧ alsoMeasureScenario3.name = "Resident Set"
    ∧ alsoMeasureScenario3.cmd = "cat /proc/self/status"
    ∧ alsoMeasureScenario3.display
        = "rss:true:Resident Set:cat /proc/self/status" := by
  exact ⟨rfl, rfl, rfl, rfl, rfl, by decide⟩

/-- C5: when the platform reports `maxrss == 0` after an otherwise
successful run, `run_test` returns the hard error `maxrss not
available` (which aborts the program via `?`), and the experiment's
sample sequences are left untouched — the round is not treated as a
soft failure. -/
theorem c5_maxrss_unavailable_hard_error (opts : Opts) (out : RunOutcome)
    (test : Experiment)
    (hw : out.warmupSuccess = true) (hr : out.runSuccess = true)
    (ht : exceedsMaxTime opts out.durationNanos = false)
    (hm : out.maxrss = 0) :
    run_test opts out test = (Except.error RunError.maxrssNotAvailable, test) := by
  simp [run_test, hw, hr, ht, hm]

/-- Witness for C5 at a concrete input. -/
theorem c5_witness :
    run_test sampleOpts ⟨true, true, 7, 0, []⟩ sampleExperiment
      = (Except.error RunError.maxrssNotAvailable, sampleExperiment) :=
  c5_maxrss_unavailable_hard_error sampleOpts ⟨true, true, 7, 0, []⟩
    sampleExperiment rfl rfl rfl rfl

/-- A round outcome in which everything succeeds except the single
user-metric command, which exits non-zero. -/
def userMetricFailOutcome : RunOutcome := ⟨true, true, 7, 1024, [⟨false, none⟩]⟩

/-- C1 counterexample: when the user-metric command fails (a soft
failure — `run_test` returns `Ok`), the wall-time sample pushed just
before the user-metric loop remains appended, so the experiment's
sample sequences are NOT left unchanged. -/
theorem c1_counterexample :
    (run_test sampleOptsU1 userMetricFailOutcome sampleExperimentU1).1
        = Except.ok ()
    ∧ (run_test sampleOptsU1 userMetricFailOutcome sampleExperimentU1).2.measures.get
          MeasureKey.WallTime
        ≠ sampleExperimentU1.measures.get MeasureKey.WallTime := by
  constructor
  · rfl
  · decide

/-- C1 amended: for each per-round soft failure detected before sample
recording (warmup script non-zero exit, run script non-zero exit, run
duration exceeding the configured `max_time`), `run_test` returns `Ok`
with the experiment's sample sequences unchanged, so no sample is
appended for any metric and the sample count is not incremented.  (The
user-metric failures excluded here occur after the wall-time and
max-RSS pushes, which persist — see the counterexample.) -/
theorem c1_amended_early_soft_failures_leave_samples_unchanged
    (opts : Opts) (out : RunOutcome) (test : Experiment)
    (h : out.warmupSuccess = false ∨ out.runSuccess = false
        ∨ exceedsMaxTime opts out.durationNanos = true) :
    run_test opts out test = (Except.ok (), test) := by
  cases hw : out.warmupSuccess with
  | false => simp [run_test, hw]
  | true =>
    cases hr : out.runSuccess with
    | false => simp [run_test, hw, hr]
    | true =>
      have h3 : exceedsMaxTime opts out.durationNanos = true := by
        rcases h with h | h | h
        · rw [hw] at h; cases h
        · rw [hr] at h; cases h
        · exact h
      simp [run_test, hw, hr, h3]

/-- Witness for the amended C1 at a concrete input (warmup failure). -/
theorem c1_witness :
    run_test sampleOpts ⟨false, true, 7, 1024, []⟩ sampleExperiment
      = (Except.ok (), sampleExperiment) :=
  c1_amended_early_soft_failures_leave_samples_unchanged sampleOpts
    ⟨false, true, 7, 1024, []⟩ sampleExperiment (Or.inl rfl)

/-- A round outcome in which everything succeeds except that the single
user-metric command's output does not parse as a number. -/
def userMetricParseFailOutcome : RunOutcome :=
  ⟨true, true, 7, 1024, [⟨true, none⟩]⟩

/-- C2 counterexample: when the user-metric command succeeds but its
trimmed output fails to parse, `run_test` does NOT return successfully:
it returns the parse error, which the enclosing loop propagates with
`?`, aborting the entire program. -/
theorem c2_counterexample :
    (run_test sampleOptsU1 userMetricParseFailOutcome sampleExperimentU1).1
      = Except.error RunError.parseError := by
  rfl

/-- C2 amended: after an otherwise successful run, a user-metric command
that exits non-zero is a soft failure — `run_test` logs a warning and
returns `Ok` so the loop continues — but a user-metric command whose
output fails to parse is a hard failure: `run_test` returns the parse
error, which propagates and aborts the entire program.  (`pre` is the
list of earlier user-metric outputs, all successful and parseable.) -/
theorem c2_amended_user_metric_failure_modes (opts : Opts) (out : RunOutcome)
    (test : Experiment)
    (hw : out.warmupSuccess = true) (hr : out.runSuccess = true)
    (ht : exceedsMaxTime opts out.durationNanos = false)
    (hm : ¬ out.maxrss = 0) :
    (∀ pre p rest, out.userOutputs = pre ++ ⟨false, p⟩ :: rest →
        (∀ x ∈ pre, x.success = true ∧ x.parsed.isSome = true) →
        (run_test opts out test).1 = Except.ok ())
    ∧ (∀ pre rest, out.userOutputs = pre ++ ⟨true, none⟩ :: rest →
        (∀ x ∈ pre, x.success = true ∧ x.parsed.isSome = true) →
        (run_test opts out test).1 = Except.error RunError.parseError) := by
  have hrun : run_test opts out test
      = runUserLoop out.userOutputs 0
          ((test.push .WallTime out.durationNanos).push .MaxRss out.maxrss) := by
    simp [run_test, hw, hr, ht, hm]
  constructor
  · intro pre p rest heq hpre
    rw [hrun, heq]
    obtain ⟨t', ht'⟩ := runUserLoop_append pre (⟨false, p⟩ :: rest) 0 _ hpre
    rw [ht']
    simp [runUserLoop]
  · intro pre rest heq hpre
    rw [hrun, heq]
    obtain ⟨t', ht'⟩ := runUserLoop_append pre (⟨true, none⟩ :: rest) 0 _ hpre
    rw [ht']
    simp [runUserLoop]

/-- Witness for the amended C2 at concrete inputs: a failing command is
soft, an unparseable output is a hard parse error. -/
theorem c2_witness :
    (run_test sampleOptsU1 userMetricFailOutcome sampleExperimentU1).1
        = Except.ok ()
    ∧ (run_test sampleOptsU1 userMetricParseFailOutcome sampleExperimentU1).1
        = Except.error RunError.parseError := by
  constructor
  · exact (c2_amended_user_metric_failure_modes sampleOptsU1
      userMetricFailOutcome sampleExperimentU1 rfl rfl rfl (by decide)).1
      [] none [] rfl (by intro x hx; cases hx)
  · exact (c2_amended_user_metric_failure_modes sampleOptsU1
      userMetricParseFailOutcome sampleExperimentU1 rfl rfl rfl (by decide)).2
      [] [] rfl (by intro x hx; cases hx)

/-- C10: every fully successful run appends exactly one wall-time and
one max-RSS sample (the `2 ≤ …` hypothesis is the sizing invariant of
the measure array, which always holds for maps built by
`new_all_default`); `run_test` does not depend on the `-m`/`--mem`
flag at all; and `-m` only controls whether the max-RSS renderer is
included in the report measures. -/
theorem c10_max_rss_always_measured (opts : Opts) (out : RunOutcome)
    (test : Experiment) :
    (out.warmupSuccess = true → out.runSuccess = true →
        exceedsMaxTime opts out.durationNanos = false → ¬ out.maxrss = 0 →
        2 ≤ test.measures.entries.length →
        (run_test opts out test).2.measures.get MeasureKey.WallTime
            = test.measures.get MeasureKey.WallTime ++ [out.durationNanos]
          ∧ (run_test opts out test).2.measures.get MeasureKey.MaxRss
            = test.measures.get MeasureKey.MaxRss ++ [out.maxrss])
    ∧ (∀ b b' : Bool, run_test { opts with mem := b } out test
        = run_test { opts with mem := b' } out test)
    ∧ (MeasureRenderer.maxRss ∈ buildMeasures opts ↔ opts.mem = true) := by
  refine ⟨?_, ?_, ?_⟩
  · intro hw hr ht hm hlen
    have hrun : run_test opts out test
        = runUserLoop out.userOutputs 0
            ((test.push .WallTime out.durationNanos).push .MaxRss out.maxrss) := by
      simp [run_test, hw, hr, ht, hm]
    rw [hrun]
    constructor
    · rw [runUserLoop_get_low _ _ _ _ (by decide)]
      show ((test.measures.push .WallTime out.durationNanos).push .MaxRss
          out.maxrss).get .WallTime = _
      rw [MeasureMap.get_push_ne _ _ _ _ (by decide)]
      exact MeasureMap.get_push_self _ _ _ (by
        show MeasureKey.WallTime.index < test.measures.entries.length
        have : MeasureKey.WallTime.index = 0 := rfl
        omega)
    · rw [runUserLoop_get_low _ _ _ _ (by decide)]
      show ((test.measures.push .WallTime out.durationNanos).push .MaxRss
          out.maxrss).get .MaxRss = _
      rw [MeasureMap.get_push_self _ _ _ (by
        rw [MeasureMap.push_entries_length]
        show MeasureKey.MaxRss.index < test.measures.entries.length
        have : MeasureKey.MaxRss.index = 1 := rfl
        omega)]
      rw [MeasureMap.get_push_ne _ _ _ _ (by decide)]
  · intro b b'
    cases opts
    rfl
  · cases hmem : opts.mem with
    | false =>
      simp only [buildMeasures, hmem, if_neg Bool.false_ne_true]
      simp [List.mem_append, List.mem_map]
    | true =>
      simp only [buildMeasures, hmem, if_pos rfl]
      simp [List.mem_append]

/-- Witness for C10 at concrete inputs: a fully successful run on a
fresh experiment records the wall-time and max-RSS samples, with and
without `-m`; and the max-RSS renderer is absent without `-m`. -/
theorem c10_witness :
    ((run_test sampleOpts ⟨true, true, 7, 1024, []⟩ sampleExperiment).2.measures.get
          MeasureKey.WallTime
        = sampleExperiment.measures.get MeasureKey.WallTime ++ [7]
      ∧ (run_test sampleOpts ⟨true, true, 7, 1024, []⟩ sampleExperiment).2.measures.get
          MeasureKey.MaxRss
        = sampleExperiment.measures.get MeasureKey.MaxRss ++ [1024])
    ∧ run_test { sampleOpts with mem := true } ⟨true, true, 7, 1024, []⟩
          sampleExperiment
        = run_test { sampleOpts with mem := false } ⟨true, true, 7, 1024, []⟩
          sampleExperiment
    ∧ ¬ MeasureRenderer.maxRss ∈ buildMeasures sampleOpts := by
  refine ⟨?_, ?_, ?_⟩
  · exact (c10_max_rss_always_measured sampleOpts ⟨true, true, 7, 1024, []⟩
      sampleExperiment).1 rfl rfl rfl (by decide) (by decide)
  · exact (c10_max_rss_always_measured sampleOpts ⟨true, true, 7, 1024, []⟩
      sampleExperiment).2.1 true false
  · intro hmem
    have h := (c10_max_rss_always_measured sampleOpts ⟨true, true, 7, 1024, []⟩
      sampleExperiment).2.2.mp hmem
    cases h


/-- An experiment for slot A that already holds exactly 2 samples for
each of its metrics. -/
def experimentWithTwoRuns : Experiment := ⟨.A, "", "./a.sh", ⟨[[5, 6], [7, 8]]⟩⟩

/-- An experiment map whose only experiment has exactly 2 samples. -/
def mapWithTwoRuns : ExperimentMap := ⟨experimentWithTwoRuns, []⟩

/-- Options requesting `-n 2` (stop after 2 successful iterations). -/
def optsTwoIterations : Opts := ⟨false, false, some 2, false, [], none⟩

/-- C4 counterexample: with `-n 2`, after the round in which every
experiment reaches 2 samples the loop breaks BEFORE rendering, so the
reports are not rendered on the final round even though every
experiment has at least 2 samples. -/
theorem c4_counterexample :
    (∀ e ∈ mapWithTwoRuns.experimentList, 2 ≤ e.runs)
    ∧ afterRound optsTwoIterations mapWithTwoRuns ≠ LoopAction.report
    ∧ afterRound optsTwoIterations mapWithTwoRuns = LoopAction.stop := by
  refine ⟨?_, by decide, by decide⟩
  intro e he
  rcases List.mem_cons.mp he with rfl | h
  · decide
  · cases h

/-- C4 amended: after a round, the main loop renders the full and short
reports if and only if every configured experiment has recorded at
least 2 samples AND the minimum sample count has not reached the `-n`
iteration limit; when the limit is reached the loop breaks without
rendering that round's reports. -/
theorem c4_amended_report_condition (opts : Opts) (m : ExperimentMap) :
    afterRound opts m = LoopAction.report
      ↔ ((∀ e ∈ m.experimentList, 2 ≤ e.runs)
          ∧ opts.iterations ≠ some m.minRuns) := by
  rw [← le_minRuns_iff]
  unfold afterRound
  by_cases hit : opts.iterations = some m.minRuns
  · rw [if_pos hit]
    constructor
    · intro h
      simp at h
    · rintro ⟨-, hne⟩
      exact absurd hit hne
  · rw [if_neg hit]
    by_cases h2 : m.minRuns < 2
    · rw [if_pos h2]
      constructor
      · intro h
        simp at h
      · rintro ⟨hle, -⟩
        omega
    · rw [if_neg h2]
      constructor
      · intro _
        exact ⟨by omega, hit⟩
      · intro _
        rfl

/-- Witness for the amended C4 at a concrete input: without `-n`, a map
in which every experiment has 2 samples gets a report. -/
theorem c4_witness :
    afterRound sampleOpts mapWithTwoRuns = LoopAction.report := by
  refine (c4_amended_report_condition sampleOpts mapWithTwoRuns).mpr ⟨?_, by decide⟩
  intro e he
  rcases List.mem_cons.mp he with rfl | h
  · decide
  · cases h

/-- C8: sample sequences are cleared at most once per program execution;
never when `-i` is unset, and exactly once — immediately after the
first round — when `-i` is set and the first round does not abort. -/
theorem c8_clear_exactly_once_with_ignore_first (opts : Opts)
    (rounds : List (List RunOutcome)) (exps : ExperimentMap) :
    (mainEvents opts rounds exps).count MainEvent.clearSamples ≤ 1
    ∧ (opts.ignore_first = false →
        MainEvent.clearSamples ∉ mainEvents opts rounds exps)
    ∧ (opts.ignore_first = true →
        mainEvents opts rounds exps = []
        ∨ mainEvents opts rounds exps = [MainEvent.roundRun]
        ∨ ∃ tail, mainEvents opts rounds exps
              = MainEvent.roundRun :: MainEvent.clearSamples :: tail
            ∧ MainEvent.clearSamples ∉ tail)
    ∧ (opts.ignore_first = true → ∀ outs rest, rounds = outs :: rest →
        (run_pair opts outs exps).1 = Except.ok () →
        (mainEvents opts rounds exps).count MainEvent.clearSamples = 1) := by
  cases hif : opts.ignore_first with
  | false =>
    have hnot := clearSamples_not_mem_mainLoop opts rounds exps
    have hev : mainEvents opts rounds exps = mainLoop opts rounds exps := by
      simp [mainEvents, hif]
    refine ⟨?_, ?_, ?_, ?_⟩
    · rw [hev, List.count_eq_zero.mpr hnot]
      omega
    · intro _
      rw [hev]
      exact hnot
    · intro h
      exact Bool.noConfusion h
    · intro h
      exact Bool.noConfusion h
  | true =>
    cases rounds with
    | nil =>
      have hev : mainEvents opts [] exps = [] := by
        simp [mainEvents, hif]
      refine ⟨?_, ?_, fun _ => Or.inl hev, ?_⟩
      · rw [hev]
        decide
      · intro h
        exact Bool.noConfusion h
      · intro _ outs rest hre
        exact absurd hre (by simp)
    | cons outs rest =>
      rcases hrp : run_pair opts outs exps with ⟨r, exps'⟩
      cases r with
      | error e =>
        have hev : mainEvents opts (outs :: rest) exps = [MainEvent.roundRun] := by
          simp [mainEvents, hif, hrp]
        refine ⟨?_, ?_, fun _ => Or.inr (Or.inl hev), ?_⟩
        · rw [hev]
          decide
        · intro h
          exact Bool.noConfusion h
        · intro _ outs' rest' hre hok
          cases hre
          rw [hrp] at hok
          exact Except.noConfusion hok
      | ok u =>
        cases u
        have hev : mainEvents opts (outs :: rest) exps
            = MainEvent.roundRun :: MainEvent.clearSamples
              :: mainLoop opts rest exps'.clearAll := by
          simp [mainEvents, hif, hrp]
        have hnot := clearSamples_not_mem_mainLoop opts rest exps'.clearAll
        have hcount : (mainEvents opts (outs :: rest) exps).count
            MainEvent.clearSamples = 1 := by
          rw [hev]
          simp [List.count_cons, List.count_eq_zero.mpr hnot]
        refine ⟨?_, ?_, fun _ => Or.inr (Or.inr ⟨_, hev, hnot⟩), ?_⟩
        · rw [hcount]
        · intro h
          exact Bool.noConfusion h
        · intro _ outs' rest' hre hok
          cases hre
          exact hcount

/-- Options with `-i` (ignore the first iteration) set. -/
def optsIgnoreFirst : Opts := ⟨false, true, none, false, [], none⟩

/-- Witness for C8 at a concrete input: with `-i` and one successful
round, the event trace clears exactly once, right after the first
round. -/
theorem c8_witness :
    (mainEvents optsIgnoreFirst [[⟨true, true, 7, 1024, []⟩]]
        ⟨sampleExperiment, []⟩).count MainEvent.clearSamples = 1 :=
  (c8_clear_exactly_once_with_ignore_first optsIgnoreFirst
      [[⟨true, true, 7, 1024, []⟩]] ⟨sampleExperiment, []⟩).2.2.2
    rfl [⟨true, true, 7, 1024, []⟩] [] rfl (by rfl)

/-- C7 counterexample: the `u64 → f64 → u64` round trip is NOT the
identity on every `u64` byte count: `2 ^ 53 + 1` is not representable
in a double and rounds (ties to even) to `2 ^ 53`, so converting the
`MemUsage` of `2 ^ 53 + 1` bytes to a double and back yields the
`MemUsage` of `2 ^ 53` bytes. -/
theorem c7_counterexample :
    MemUsage.from_f64 (MemUsage.as_f64 (MemUsage.from_bytes (2 ^ 53 + 1)))
        ≠ MemUsage.from_bytes (2 ^ 53 + 1)
    ∧ MemUsage.as_f64 (MemUsage.from_bytes (2 ^ 53 + 1)) = 2 ^ 53 := by
  constructor
  · decide
  · decide

/-- C7 amended: the `MemUsage` round trip through a 64-bit float is
lossless on every byte count up to `2 ^ 53`, where the `u64 as f64`
cast is exact: for every `m` with `m.bytes ≤ 2 ^ 53`,
`from_f64 (as_f64 m) = m`.  Beyond `2 ^ 53` the cast rounds to 53
significant bits and the round trip can change the value (see the
counterexample at `2 ^ 53 + 1`). -/
theorem c7_amended_round_trip_up_to_2_pow_53 (m : MemUsage)
    (h : m.bytes ≤ 2 ^ 53) :
    MemUsage.from_f64 (MemUsage.as_f64 m) = m := by
  rcases m with ⟨n⟩
  have hn : n ≤ 2 ^ 53 := h
  rcases Nat.lt_or_eq_of_le hn with hlt | heq
  · have hu : u64AsF64 n = n := by
      unfold u64AsF64
      rw [if_pos hlt]
    show MemUsage.from_f64 (u64AsF64 n) = ⟨n⟩
    rw [hu]
    unfold MemUsage.from_f64 f64AsU64
    have h53 : (2 : Nat) ^ 53 = 9007199254740992 := by norm_num
    have h64 : (2 : Nat) ^ 64 - 1 = 18446744073709551615 := by norm_num
    congr 1
    omega
  · subst heq
    decide

/-- Witness for the amended C7 at a concrete input: 1024 bytes round
trip unchanged. -/
theorem c7_witness :
    MemUsage.from_f64 (MemUsage.as_f64 (MemUsage.from_bytes 1024))
      = MemUsage.from_bytes 1024 :=
  c7_amended_round_trip_up_to_2_pow_53 (MemUsage.from_bytes 1024) (by decide)
